import Mathlib

/-!  Shallow embedding of the supermarket-sales star-schema pipeline
(`main.py`) and of its ranking report (`generate_report.py`), together
with theorems checking the specified properties of both scripts.

Tabular data is modelled as lists of rows; numeric columns are modelled
as rationals; the external date parser is a parameter returning `Option`;
the SQLite store is a record of four optional tables (a `none` field is a
table that does not exist yet).  -/

attribute [local semireducible] Rat.add Rat.mul Rat.inv Rat.sub

/-- One raw transaction row after the column renaming in `main.py`
(lowercase, spaces to underscores, `tax_5%` to `tax_amount`, `payment`
to `payment_mode`). -/
structure RawRow where
  invoice_id : String
  branch : String
  city : String
  customer_type : String
  gender : String
  product_line : String
  unit_price : ℚ
  quantity : ℚ
  tax_amount : ℚ
  sales : ℚ
  cogs : ℚ
  gross_margin_percentage : ℚ
  gross_income : ℚ
  rating : ℚ
  date : String
  time : String
  payment_mode : String
deriving DecidableEq

/-- Natural key of the branch dimension: columns `['branch', 'city']`. -/
def branchKey (r : RawRow) : String × String := (r.branch, r.city)

/-- Natural key of the customer dimension: columns `['customer_type', 'gender']`. -/
def customerKey (r : RawRow) : String × String := (r.customer_type, r.gender)

/-- Natural key of the product dimension: columns `['product_line', 'unit_price']`. -/
def productKey (r : RawRow) : String × ℚ := (r.product_line, r.unit_price)

/-- The combined text `df['date'] + ' ' + df['time']` handed to the date parser. -/
def combinedDateTime (r : RawRow) : String := r.date ++ " " ++ r.time

/-- Worker for `drop_duplicates`: drops every element already seen. -/
def dedupSeen [DecidableEq α] (seen : List α) : List α → List α
  | [] => []
  | x :: xs => if x ∈ seen then dedupSeen seen xs else x :: dedupSeen (x :: seen) xs

/-- Model of pandas `DataFrame.drop_duplicates()` (default `keep='first'`):
keeps the first occurrence of each value, in input order. -/
def drop_duplicates [DecidableEq α] (l : List α) : List α := dedupSeen [] l

/-- Surrogate-key assignment `range(1, len(df) + 1)` attached to the rows. -/
def assignKeys (l : List α) : List (ℕ × α) := l.enum.map fun p => (p.1 + 1, p.2)

/-- `branch_df`: lines 26-30 of `main.py`. -/
def branch_df (rows : List RawRow) : List (ℕ × String × String) :=
  assignKeys (drop_duplicates (rows.map branchKey))

/-- `customer_df`: lines 33-37 of `main.py`. -/
def customer_df (rows : List RawRow) : List (ℕ × String × String) :=
  assignKeys (drop_duplicates (rows.map customerKey))

/-- `product_df`: lines 40-45 of `main.py`. -/
def product_df (rows : List RawRow) : List (ℕ × String × ℚ) :=
  assignKeys (drop_duplicates (rows.map productKey))

/-- Position of the first occurrence of `a` in `l` (length of `l` if absent). -/
def firstIdx [DecidableEq α] (l : List α) (a : α) : ℕ :=
  l.findIdx fun y => decide (y = a)

/-- First matching dimension row's surrogate key (if any) for a natural key. -/
def lookupKey [DecidableEq κ] (right : List (ℕ × κ)) (k : κ) : Option ℕ :=
  (right.find? fun p => decide (p.2 = k)).map Prod.fst

/-- Model of `df.merge(dim, on=key_cols, how='left')`, restricted to the one
column the merge adds (the dimension's surrogate key): every left row is
paired with the key of each matching dimension row, or with `none` when no
dimension row matches. -/
def merge_left [DecidableEq κ] (left : List β) (key : β → κ) (right : List (ℕ × κ)) :
    List (β × Option ℕ) :=
  left.flatMap fun b =>
    match right.filter fun p => decide (p.2 = key b) with
    | [] => [(b, none)]
    | m :: ms => (m :: ms).map fun p => (b, some p.1)

/-- The three successive left merges of lines 57-59 of `main.py`, applied to
the raw rows (paired with their parsed date-times) and three dimension
tables given as arguments. -/
def mergeAll (rows : List RawRow) (dts : List ℕ)
    (bd : List (ℕ × String × String)) (cd : List (ℕ × String × String))
    (pd : List (ℕ × String × ℚ)) :
    List ((((RawRow × ℕ) × Option ℕ) × Option ℕ) × Option ℕ) :=
  merge_left
    (merge_left
      (merge_left (rows.zip dts) (fun rd => branchKey rd.1) bd)
      (fun x => customerKey x.1.1) cd)
    (fun x => productKey x.1.1.1) pd

/-- The merged dataframe of `main.py`, using the dimension tables built from
the same raw rows. -/
def merged (rows : List RawRow) (dts : List ℕ) :
    List ((((RawRow × ℕ) × Option ℕ) × Option ℕ) × Option ℕ) :=
  mergeAll rows dts (branch_df rows) (customer_df rows) (product_df rows)

/-- One row of the `sales_fact` table. -/
structure FactRow where
  invoice_id : String
  branch_id : Option ℕ
  customer_id : Option ℕ
  product_id : Option ℕ
  quantity : ℚ
  cogs : ℚ
  tax_amount : ℚ
  sales : ℚ
  gross_income : ℚ
  gross_margin_percentage : ℚ
  invoice_datetime : ℕ
  payment_mode : String
  rating : ℚ
deriving DecidableEq

/-- Column projection of lines 62-63 of `main.py` applied to one merged row. -/
def mkFact (x : (((RawRow × ℕ) × Option ℕ) × Option ℕ) × Option ℕ) : FactRow :=
  { invoice_id := x.1.1.1.1.invoice_id
    branch_id := x.1.1.2
    customer_id := x.1.2
    product_id := x.2
    quantity := x.1.1.1.1.quantity
    cogs := x.1.1.1.1.cogs
    tax_amount := x.1.1.1.1.tax_amount
    sales := x.1.1.1.1.sales
    gross_income := x.1.1.1.1.gross_income
    gross_margin_percentage := x.1.1.1.1.gross_margin_percentage
    invoice_datetime := x.1.1.1.2
    payment_mode := x.1.1.1.1.payment_mode
    rating := x.1.1.1.1.rating }

/-- `sales_data`: the fact table built on lines 57-63 of `main.py`. -/
def sales_data (rows : List RawRow) (dts : List ℕ) : List FactRow :=
  (merged rows dts).map mkFact

/-- Row-wise application of the external date-time parser
(`pd.to_datetime(df['date'] + ' ' + df['time'], ...)`, line 23 of
`main.py`): fails for the whole run as soon as any row fails to parse.
The parser itself is external (pandas) and is passed as a parameter;
a parsed date-time is represented by an opaque number. -/
def parseAll (parse : String → Option ℕ) : List RawRow → Option (List ℕ)
  | [] => some []
  | r :: rs =>
    match parse (combinedDateTime r), parseAll parse rs with
    | some t, some ts => some (t :: ts)
    | _, _ => none

/-- The persisted SQLite store: four optional tables (`none` means the
table does not exist). -/
structure Store where
  branch_dim : Option (List (ℕ × String × String))
  customer_dim : Option (List (ℕ × String × String))
  product_dim : Option (List (ℕ × String × ℚ))
  sales_fact : Option (List FactRow)
deriving DecidableEq

/-- The whole run of `main.py` over a loaded raw table: parse the date-time
column (a parse failure aborts the run before any write, leaving the store
untouched), then replace all four tables of the store. -/
def runPipeline (parse : String → Option ℕ) (rows : List RawRow) (st : Store) : Store :=
  match parseAll parse rows with
  | none => st
  | some dts =>
    { branch_dim := some (branch_df rows)
      customer_dim := some (customer_df rows)
      product_dim := some (product_df rows)
      sales_fact := some (sales_data rows dts) }

/-- Floor of a rational, written so that it evaluates by kernel reduction
(the denominator of a `Rat` is always positive). -/
def ratFloor (q : ℚ) : ℤ := Int.fdiv q.num q.den

/-- Rounding half away from zero, as SQLite's `ROUND` does on exact values. -/
def roundHalfAway (q : ℚ) : ℤ :=
  if 0 ≤ q then ratFloor (q + 1 / 2) else -ratFloor (-q + 1 / 2)

/-- Model of `ROUND(x, 2)`: round to 2 decimal places. -/
def round2 (q : ℚ) : ℚ := (roundHalfAway (q * 100) : ℚ) / 100

/-- The rows the inner joins of the report query produce for one fact row:
`(b.branch, p.product_line, s.sales)` for every pair of matching dimension
rows.  A fact row with a null foreign key matches nothing (`NULL` compares
unequal to every key in SQL). -/
def factJoinRows (bd : List (ℕ × String × String)) (pd : List (ℕ × String × ℚ))
    (f : FactRow) : List (String × String × ℚ) :=
  bd.flatMap fun b =>
    if f.branch_id = some b.1 then
      pd.filterMap fun p =>
        if f.product_id = some p.1 then some (b.2.1, p.2.1, f.sales) else none
    else []

/-- The joined row set `sales_fact JOIN branch_dim JOIN product_dim` of the
report query's CTE. -/
def joined (facts : List FactRow) (bd : List (ℕ × String × String))
    (pd : List (ℕ × String × ℚ)) : List (String × String × ℚ) :=
  facts.flatMap (factJoinRows bd pd)

/-- The `GROUP BY b.branch, p.product_line` groups present in the joined rows. -/
def groupPairs (j : List (String × String × ℚ)) : List (String × String) :=
  drop_duplicates (j.map fun x => (x.1, x.2.1))

/-- `SUM(s.sales)` over one `(branch, product_line)` group. -/
def salesSum (j : List (String × String × ℚ)) (b l : String) : ℚ :=
  ((j.filter fun x => decide (x.1 = b) && decide (x.2.1 = l)).map fun x => x.2.2).sum

/-- `ROUND(SUM(s.sales), 2)`: the `total_sales` column of the CTE. -/
def groupTotal (j : List (String × String × ℚ)) (b l : String) : ℚ :=
  round2 (salesSum j b l)

/-- The distinct rounded totals of the groups of one branch. -/
def branchTotals (j : List (String × String × ℚ)) (b : String) : List ℚ :=
  drop_duplicates (((groupPairs j).filter fun q => decide (q.1 = b)).map
    fun q => groupTotal j q.1 q.2)

/-- `DENSE_RANK() OVER (PARTITION BY b.branch ORDER BY ROUND(SUM(s.sales), 2)
DESC)`: one plus the number of distinct rounded totals in the same branch
that are strictly larger. -/
def denseRank (j : List (String × String × ℚ)) (b l : String) : ℕ :=
  1 + ((branchTotals j b).filter fun t => decide (groupTotal j b l < t)).length

/-- The CTE of the report query: one row `(branch, product_line, total_sales,
rank)` per group. -/
def cteOf (j : List (String × String × ℚ)) : List (String × String × ℚ × ℕ) :=
  (groupPairs j).map fun q => (q.1, q.2, groupTotal j q.1 q.2, denseRank j q.1 q.2)

/-- The `ORDER BY branch, rank DESC` ordering of the outer query: branch
ascending, and inside one branch the rank descending. -/
def reportOrder (a b : String × String × ℚ × ℕ) : Prop :=
  a.1 < b.1 ∨ (a.1 = b.1 ∧ b.2.2.2 ≤ a.2.2.2)

instance : DecidableRel reportOrder := fun a b =>
  inferInstanceAs (Decidable (a.1 < b.1 ∨ (a.1 = b.1 ∧ b.2.2.2 ≤ a.2.2.2)))

instance : IsTotal (String × String × ℚ × ℕ) reportOrder where
  total a b := by
    rcases lt_trichotomy a.1 b.1 with h | h | h
    · exact Or.inl (Or.inl h)
    · rcases Nat.le_total b.2.2.2 a.2.2.2 with hr | hr
      · exact Or.inl (Or.inr ⟨h, hr⟩)
      · exact Or.inr (Or.inr ⟨h.symm, hr⟩)
    · exact Or.inr (Or.inl h)

instance : IsTrans (String × String × ℚ × ℕ) reportOrder where
  trans a b c hab hbc := by
    rcases hab with hab | ⟨hab, hr1⟩
    · rcases hbc with hbc | ⟨hbc, _⟩
      · exact Or.inl (hab.trans hbc)
      · exact Or.inl (hbc ▸ hab)
    · rcases hbc with hbc | ⟨hbc, hr2⟩
      · exact Or.inl (hab ▸ hbc)
      · exact Or.inr ⟨hab.trans hbc, hr1.trans' hr2⟩

/-- The report rows computed from a joined row set: filter the CTE to
`rank <= 3`, order by branch ascending then rank descending, and project
away the rank. -/
def reportRows (j : List (String × String × ℚ)) : List (String × String × ℚ) :=
  ((cteOf j).filter fun x => decide (x.2.2.2 ≤ 3)).insertionSort reportOrder
    |>.map fun x => (x.1, x.2.1, x.2.2.1)

/-- `export_df`: the full report query of `generate_report.py` over the three
tables it reads. -/
def export_df (facts : List FactRow) (bd : List (ℕ × String × String))
    (pd : List (ℕ × String × ℚ)) : List (String × String × ℚ) :=
  reportRows (joined facts bd pd)

/-- The report run (`generate_report.py`): fails if one of the three tables
it reads does not exist in the store. -/
def generate_report (st : Store) : Option (List (String × String × ℚ)) :=
  match st.sales_fact, st.branch_dim, st.product_dim with
  | some f, some b, some p => some (export_df f b p)
  | _, _, _ => none

def rX : RawRow :=
  { invoice_id := "I1"
    branch := "A"
    city := "Y"
    customer_type := "M"
    gender := "F"
    product_line := "X"
    unit_price := 10
    quantity := 2
    tax_amount := 1
    sales := 21
    cogs := 20
    gross_margin_percentage := 5
    gross_income := 1
    rating := 7
    date := "d1"
    time := "t1"
    payment_mode := "Cash" }

def rY : RawRow :=
  { invoice_id := "I2"
    branch := "B"
    city := "Z"
    customer_type := "N"
    gender := "M"
    product_line := "Y"
    unit_price := 20
    quantity := 1
    tax_amount := 2
    sales := 30
    cogs := 25
    gross_margin_percentage := 4
    gross_income := 2
    rating := 8
    date := "d2"
    time := "t2"
    payment_mode := "Card" }

def fX : FactRow :=
  { invoice_id := "I1"
    branch_id := some 1
    customer_id := some 1
    product_id := some 1
    quantity := 1
    cogs := 1
    tax_amount := 1
    sales := 1234/1000
    gross_income := 1
    gross_margin_percentage := 1
    invoice_datetime := 0
    payment_mode := "Cash"
    rating := 5 }

def fY : FactRow :=
  { invoice_id := "I2"
    branch_id := some 1
    customer_id := some 1
    product_id := some 2
    quantity := 1
    cogs := 1
    tax_amount := 1
    sales := 1236/1000
    gross_income := 1
    gross_margin_percentage := 1
    invoice_datetime := 0
    payment_mode := "Cash"
    rating := 5 }

def fW : FactRow :=
  { invoice_id := "I3"
    branch_id := some 1
    customer_id := some 1
    product_id := some 2
    sales := 1229/1000
    quantity := 1
    cogs := 1
    tax_amount := 1
    gross_income := 1
    gross_margin_percentage := 1
    invoice_datetime := 0
    payment_mode := "Cash"
    rating := 5 }

def fN : FactRow :=
  { invoice_id := "I4"
    branch_id := none
    customer_id := some 1
    product_id := some 1
    sales := 99
    quantity := 1
    cogs := 1
    tax_amount := 1
    gross_income := 1
    gross_margin_percentage := 1
    invoice_datetime := 0
    payment_mode := "Cash"
    rating := 5 }

def bd5 : List (ℕ × String × String) := [(1, ("A", "C"))]

def pd5 : List (ℕ × String × ℚ) := [(1, ("X", 1)), (2, ("Y", 1))]

def parse0 : String → Option ℕ := fun _ => some 0

def parseN : String → Option ℕ := fun _ => none

def st0 : Store :=
  { branch_dim := none
    customer_dim := none
    product_dim := none
    sales_fact := none }

section DedupLemmas

variable {α : Type _} [DecidableEq α]

theorem mem_dedupSeen {seen : List α} {l : List α} {a : α} :
    a ∈ dedupSeen seen l ↔ a ∈ l ∧ a ∉ seen := by
  induction l generalizing seen with
  | nil => simp [dedupSeen]
  | cons x xs ih =>
    by_cases hx : x ∈ seen
    · rw [dedupSeen, if_pos hx, ih]
      constructor
      · rintro ⟨h1, h2⟩
        exact ⟨List.mem_cons_of_mem _ h1, h2⟩
      · rintro ⟨h1, h2⟩
        rcases List.mem_cons.1 h1 with rfl | h1
        · exact absurd hx h2
        · exact ⟨h1, h2⟩
    · rw [dedupSeen, if_neg hx]
      constructor
      · intro h
        rcases List.mem_cons.1 h with rfl | h
        · exact ⟨List.mem_cons_self _ _, hx⟩
        · obtain ⟨h1, h2⟩ := ih.1 h
          exact ⟨List.mem_cons_of_mem _ h1,
            fun hs => h2 (List.mem_cons_of_mem _ hs)⟩
      · rintro ⟨h1, h2⟩
        rcases List.mem_cons.1 h1 with rfl | h1
        · exact List.mem_cons_self _ _
        · by_cases hax : a = x
          · subst hax; exact List.mem_cons_self _ _
          · refine List.mem_cons_of_mem _ (ih.2 ⟨h1, fun hs => ?_⟩)
            exact (List.mem_cons.1 hs).elim hax h2

theorem nodup_dedupSeen (seen : List α) (l : List α) : (dedupSeen seen l).Nodup := by
  induction l generalizing seen with
  | nil => simp [dedupSeen]
  | cons x xs ih =>
    by_cases hx : x ∈ seen
    · simpa [dedupSeen, if_pos hx] using ih seen
    · simp only [dedupSeen, if_neg hx]
      refine List.Nodup.cons ?_ (ih (x :: seen))
      intro hmem
      exact (mem_dedupSeen.1 hmem).2 (List.mem_cons_self x seen)

theorem mem_drop_duplicates {l : List α} {a : α} :
    a ∈ drop_duplicates l ↔ a ∈ l := by
  simp [drop_duplicates, mem_dedupSeen]

theorem nodup_drop_duplicates (l : List α) : (drop_duplicates l).Nodup :=
  nodup_dedupSeen [] l

theorem toFinset_drop_duplicates (l : List α) :
    (drop_duplicates l).toFinset = l.toFinset := by
  ext a; simp [mem_drop_duplicates]

theorem length_drop_duplicates (l : List α) :
    (drop_duplicates l).length = l.toFinset.card := by
  rw [← toFinset_drop_duplicates, List.toFinset_card_of_nodup (nodup_drop_duplicates l)]

theorem firstIdx_cons_self (x : α) (xs : List α) : firstIdx (x :: xs) x = 0 := by
  simp [firstIdx, List.findIdx_cons]

theorem firstIdx_cons_ne {a x : α} (xs : List α) (h : a ≠ x) :
    firstIdx (x :: xs) a = firstIdx xs a + 1 := by
  have : decide (x = a) = false := by
    simp [decide_eq_false_iff_not]; exact fun hx => h hx.symm
  simp [firstIdx, List.findIdx_cons, this]

theorem pairwise_firstIdx_dedupSeen (l : List α) :
    ∀ seen : List α,
      (dedupSeen seen l).Pairwise fun a b => firstIdx l a < firstIdx l b := by
  induction l with
  | nil => intro seen; simp [dedupSeen]
  | cons x xs ih =>
    intro seen
    by_cases hx : x ∈ seen
    · simp only [dedupSeen, if_pos hx]
      refine (ih seen).imp_of_mem ?_
      intro a b ha hb hab
      have hane : a ≠ x := fun h => (mem_dedupSeen.1 ha).2 (h ▸ hx)
      have hbne : b ≠ x := fun h => (mem_dedupSeen.1 hb).2 (h ▸ hx)
      rw [firstIdx_cons_ne xs hane, firstIdx_cons_ne xs hbne]
      exact Nat.succ_lt_succ hab
    · simp only [dedupSeen, if_neg hx]
      refine List.Pairwise.cons ?_ ?_
      · intro b hb
        have hbne : b ≠ x := fun h =>
          (mem_dedupSeen.1 hb).2 (h ▸ List.mem_cons_self x seen)
        rw [firstIdx_cons_self, firstIdx_cons_ne xs hbne]
        exact Nat.succ_pos _
      · refine (ih (x :: seen)).imp_of_mem ?_
        intro a b ha hb hab
        have hane : a ≠ x := fun h =>
          (mem_dedupSeen.1 ha).2 (h ▸ List.mem_cons_self x seen)
        have hbne : b ≠ x := fun h =>
          (mem_dedupSeen.1 hb).2 (h ▸ List.mem_cons_self x seen)
        rw [firstIdx_cons_ne xs hane, firstIdx_cons_ne xs hbne]
        exact Nat.succ_lt_succ hab

theorem pairwise_firstIdx_drop_duplicates (l : List α) :
    (drop_duplicates l).Pairwise fun a b => firstIdx l a < firstIdx l b :=
  pairwise_firstIdx_dedupSeen l []

end DedupLemmas

section AssignKeysLemmas

variable {α : Type _}

theorem assignKeys_map_snd (l : List α) : (assignKeys l).map Prod.snd = l := by
  simp only [assignKeys, List.map_map]
  have : (Prod.snd ∘ fun p : ℕ × α => (p.1 + 1, p.2)) = Prod.snd := by
    funext p; rfl
  rw [this, List.enum_map_snd]

theorem assignKeys_map_fst (l : List α) :
    (assignKeys l).map Prod.fst = List.range' 1 l.length := by
  simp only [assignKeys, List.map_map]
  have h1 : (Prod.fst ∘ fun p : ℕ × α => (p.1 + 1, p.2)) =
      (fun n => n + 1) ∘ Prod.fst := by
    funext p; rfl
  rw [h1, ← List.map_map, List.enum_map_fst, List.range'_eq_map_range]
  exact List.map_congr_left fun a _ => Nat.add_comm a 1

end AssignKeysLemmas

section MergeLemmas

variable {β : Type _} {κ : Type _} [DecidableEq κ]

theorem filter_key_eq_find {right : List (ℕ × κ)}
    (h : (right.map Prod.snd).Nodup) (k : κ) :
    (right.filter fun p => decide (p.2 = k)) =
      (right.find? fun p => decide (p.2 = k)).toList := by
  induction right with
  | nil => rfl
  | cons p ps ih =>
    have h2 : p.2 ∉ ps.map Prod.snd ∧ (ps.map Prod.snd).Nodup := by
      rw [List.map_cons, List.nodup_cons] at h; exact h
    by_cases hp : p.2 = k
    · have h1 : (ps.filter fun q => decide (q.2 = k)) = [] := by
        rw [List.filter_eq_nil_iff]
        intro q hq
        simp only [decide_eq_true_eq]
        intro hqk
        exact h2.1 (hp ▸ hqk ▸ List.mem_map_of_mem Prod.snd hq)
      rw [List.filter_cons_of_pos (by simpa using hp), h1,
        List.find?_cons_of_pos _ (by simpa using hp)]
      rfl
    · rw [List.filter_cons_of_neg (by simpa using hp),
        List.find?_cons_of_neg _ (by simpa using hp)]
      exact ih h2.2

theorem merge_left_eq_map (left : List β) (key : β → κ) {right : List (ℕ × κ)}
    (h : (right.map Prod.snd).Nodup) :
    merge_left left key right = left.map fun b => (b, lookupKey right (key b)) := by
  induction left with
  | nil => rfl
  | cons b bs ih =>
    simp only [merge_left, List.flatMap_cons] at ih ⊢
    rw [ih, List.map_cons, filter_key_eq_find h (key b)]
    rcases hfind : right.find? fun p => decide (p.2 = key b) with _ | p <;>
      simp [lookupKey, hfind, Option.toList]

theorem lookupKey_mem {right : List (ℕ × κ)} {k : κ} {i : ℕ}
    (h : lookupKey right k = some i) : (i, k) ∈ right := by
  rw [lookupKey] at h
  cases hfind : right.find? fun p => decide (p.2 = k) with
  | none => rw [hfind] at h; exact absurd h (by simp)
  | some p =>
    rw [hfind] at h
    have hp2 : p.2 = k := by simpa using List.find?_some hfind
    have hp1 : p.1 = i := by simpa using h
    have := List.mem_of_find?_eq_some hfind
    rwa [← hp1, ← hp2, Prod.mk.eta]

theorem lookupKey_eq_none {right : List (ℕ × κ)} {k : κ}
    (h : k ∉ right.map Prod.snd) : lookupKey right k = none := by
  rw [lookupKey]
  cases hfind : right.find? fun p => decide (p.2 = k) with
  | none => rfl
  | some p =>
    have hp2 : p.2 = k := by simpa using List.find?_some hfind
    exact absurd (hp2 ▸ List.mem_map_of_mem Prod.snd (List.mem_of_find?_eq_some hfind)) h

theorem lookupKey_isSome_of_mem {right : List (ℕ × κ)} {k : κ}
    (h : k ∈ right.map Prod.snd) : ∃ i, lookupKey right k = some i := by
  rw [lookupKey]
  cases hfind : right.find? fun p => decide (p.2 = k) with
  | some p => exact ⟨p.1, rfl⟩
  | none =>
    obtain ⟨p, hp, hpk⟩ := List.mem_map.1 h
    have := List.find?_eq_none.1 hfind p hp
    simp [hpk] at this

end MergeLemmas

theorem nodup_branch_df_keys (rows : List RawRow) :
    ((branch_df rows).map Prod.snd).Nodup := by
  rw [branch_df, assignKeys_map_snd]; exact nodup_drop_duplicates _

theorem nodup_customer_df_keys (rows : List RawRow) :
    ((customer_df rows).map Prod.snd).Nodup := by
  rw [customer_df, assignKeys_map_snd]; exact nodup_drop_duplicates _

theorem nodup_product_df_keys (rows : List RawRow) :
    ((product_df rows).map Prod.snd).Nodup := by
  rw [product_df, assignKeys_map_snd]; exact nodup_drop_duplicates _

/-- With duplicate-free dimension keys, every left merge resolves each raw
row to the unique matching surrogate key (or `none`), so the three merges
amount to three independent lookups per raw row. -/
theorem mergeAll_eq_map (rows : List RawRow) (dts : List ℕ)
    {bd : List (ℕ × String × String)} {cd : List (ℕ × String × String)}
    {pd : List (ℕ × String × ℚ)}
    (hb : (bd.map Prod.snd).Nodup) (hc : (cd.map Prod.snd).Nodup)
    (hp : (pd.map Prod.snd).Nodup) :
    mergeAll rows dts bd cd pd = (rows.zip dts).map fun rd =>
      (((rd, lookupKey bd (branchKey rd.1)),
        lookupKey cd (customerKey rd.1)),
        lookupKey pd (productKey rd.1)) := by
  rw [mergeAll, merge_left_eq_map _ _ hb, merge_left_eq_map _ _ hc,
    merge_left_eq_map _ _ hp, List.map_map, List.map_map]
  rfl

theorem merged_eq_map (rows : List RawRow) (dts : List ℕ) :
    merged rows dts = (rows.zip dts).map fun rd =>
      (((rd, lookupKey (branch_df rows) (branchKey rd.1)),
        lookupKey (customer_df rows) (customerKey rd.1)),
        lookupKey (product_df rows) (productKey rd.1)) :=
  mergeAll_eq_map rows dts (nodup_branch_df_keys rows)
    (nodup_customer_df_keys rows) (nodup_product_df_keys rows)

theorem parseAll_length {parse : String → Option ℕ} :
    ∀ {rows : List RawRow} {dts : List ℕ},
      parseAll parse rows = some dts → dts.length = rows.length := by
  intro rows
  induction rows with
  | nil => intro dts h; cases h; rfl
  | cons r rs ih =>
    intro dts h
    rw [parseAll] at h
    cases hp : parse (combinedDateTime r) with
    | none => rw [hp] at h; exact absurd h (by simp)
    | some t =>
      cases hrec : parseAll parse rs with
      | none => rw [hp, hrec] at h; exact absurd h (by simp)
      | some ts =>
        rw [hp, hrec] at h
        cases h
        simp [ih hrec]

theorem parseAll_eq_none {parse : String → Option ℕ} {rows : List RawRow}
    {r : RawRow} (hr : r ∈ rows) (h : parse (combinedDateTime r) = none) :
    parseAll parse rows = none := by
  induction rows with
  | nil => cases hr
  | cons x xs ih =>
    rw [parseAll]
    rcases List.mem_cons.1 hr with rfl | hr
    · rw [h]
    · cases hp : parse (combinedDateTime x) with
      | none => rfl
      | some t => rw [ih hr]

theorem denseRank_congr {j : List (String × String × ℚ)} {b l l' : String}
    (h : groupTotal j b l = groupTotal j b l') :
    denseRank j b l = denseRank j b l' := by
  simp only [denseRank, h]

theorem mem_reportRows {j : List (String × String × ℚ)} {b l : String} {t : ℚ} :
    (b, l, t) ∈ reportRows j ↔
      ((b, l) ∈ groupPairs j ∧ t = groupTotal j b l ∧ denseRank j b l ≤ 3) := by
  unfold reportRows
  constructor
  · intro h
    obtain ⟨x, hx, hproj⟩ := List.mem_map.1 h
    have hx2 : x ∈ (cteOf j).filter fun y => decide (y.2.2.2 ≤ 3) :=
      ((List.perm_insertionSort reportOrder _).mem_iff).1 hx
    obtain ⟨hxc, hrank⟩ := List.mem_filter.1 hx2
    simp only [cteOf] at hxc
    obtain ⟨q, hq, rfl⟩ := List.mem_map.1 hxc
    have hb : q.1 = b := congrArg Prod.fst hproj
    have hl : q.2 = l := congrArg (fun z => z.2.1) hproj
    have ht : groupTotal j q.1 q.2 = t := congrArg (fun z => z.2.2) hproj
    have hq2 : q = (b, l) := Prod.ext hb hl
    have hrank2 : denseRank j q.1 q.2 ≤ 3 := by simpa using hrank
    rw [hq2] at hq hrank2
    rw [hb, hl] at ht
    exact ⟨hq, ht.symm, hrank2⟩
  · rintro ⟨hmem, rfl, hrank⟩
    refine List.mem_map.2 ⟨(b, l, groupTotal j b l, denseRank j b l), ?_, rfl⟩
    refine ((List.perm_insertionSort reportOrder _).mem_iff).2 ?_
    refine List.mem_filter.2 ⟨?_, by simpa using hrank⟩
    simp only [cteOf]
    exact List.mem_map.2 ⟨(b, l), hmem, rfl⟩

theorem filter_gt_length_eq_card {T : List ℚ} (hT : T.Nodup) (c : ℚ) :
    (T.filter fun s => decide (c < s)).length =
      (T.toFinset.filter fun s => c < s).card := by
  rw [← List.toFinset_card_of_nodup (hT.filter _), List.toFinset_filter]
  congr 1
  apply Finset.filter_congr
  intro s _
  simp

theorem denseRank_pred {j : List (String × String × ℚ)} {b l : String}
    (h2 : 2 ≤ denseRank j b l) :
    ∃ l', (b, l') ∈ groupPairs j ∧ denseRank j b l' + 1 = denseRank j b l := by
  have hT : (branchTotals j b).Nodup := nodup_drop_duplicates _
  have hlen : 1 ≤ ((branchTotals j b).filter fun s =>
      decide (groupTotal j b l < s)).length := by
    unfold denseRank at h2; omega
  rw [filter_gt_length_eq_card hT] at hlen
  have hne : ((branchTotals j b).toFinset.filter fun s =>
      groupTotal j b l < s).Nonempty := Finset.card_pos.1 (by omega)
  obtain ⟨t', ht'G, ht'min⟩ := Finset.exists_min_image _ id hne
  obtain ⟨ht'F, ht'gt⟩ := Finset.mem_filter.1 ht'G
  have ht'T := List.mem_toFinset.1 ht'F
  obtain ⟨q, hqf, hqt⟩ := List.mem_map.1 (mem_drop_duplicates.1 ht'T)
  obtain ⟨hqmem, hqb⟩ := List.mem_filter.1 hqf
  have hqb' : q.1 = b := of_decide_eq_true hqb
  have htot : groupTotal j b q.2 = t' := by rw [← hqb']; exact hqt
  refine ⟨q.2, ?_, ?_⟩
  · have hq2 : q = (b, q.2) := Prod.ext hqb' rfl
    rwa [← hq2]
  · have hkey : ((branchTotals j b).toFinset.filter fun s => groupTotal j b q.2 < s) =
        ((branchTotals j b).toFinset.filter fun s => groupTotal j b l < s).erase t' := by
      rw [htot]
      ext s
      simp only [Finset.mem_filter, Finset.mem_erase]
      constructor
      · rintro ⟨hsF, hst⟩
        exact ⟨ne_of_gt hst, hsF, lt_trans ht'gt hst⟩
      · rintro ⟨hne2, hsF, hts⟩
        have hsG := Finset.mem_filter.2 ⟨hsF, hts⟩
        exact ⟨hsF, lt_of_le_of_ne (ht'min s hsG) (Ne.symm hne2)⟩
    unfold denseRank
    rw [filter_gt_length_eq_card hT, filter_gt_length_eq_card hT, hkey,
      Finset.card_erase_of_mem ht'G]
    omega

theorem sorted_reportRows (j : List (String × String × ℚ)) :
    List.Sorted reportOrder
      (((cteOf j).filter fun x => decide (x.2.2.2 ≤ 3)).insertionSort reportOrder) :=
  List.sorted_insertionSort reportOrder _

theorem toFinset_range_one (k : ℕ) :
    (List.range' 1 k).toFinset = Finset.Icc 1 k := by
  ext n
  simp only [List.mem_toFinset, List.mem_range'_1, Finset.mem_Icc]
  omega

theorem factJoinRows_eq_nil {bd : List (ℕ × String × String)}
    {pd : List (ℕ × String × ℚ)} {f : FactRow}
    (h : f.branch_id = none ∨ f.product_id = none) :
    factJoinRows bd pd f = [] := by
  rcases h with h | h <;> simp [factJoinRows, h]

theorem joined_filter_eq (facts : List FactRow) (bd : List (ℕ × String × String))
    (pd : List (ℕ × String × ℚ)) :
    joined facts bd pd =
      joined (facts.filter fun f => f.branch_id.isSome && f.product_id.isSome) bd pd := by
  induction facts with
  | nil => rfl
  | cons f fs ih =>
    show factJoinRows bd pd f ++ fs.flatMap (factJoinRows bd pd) =
      (List.filter (fun g => g.branch_id.isSome && g.product_id.isSome)
        (f :: fs)).flatMap (factJoinRows bd pd)
    rw [List.filter_cons]
    by_cases hf : (f.branch_id.isSome && f.product_id.isSome) = true
    · rw [if_pos hf, List.flatMap_cons]
      exact congrArg (factJoinRows bd pd f ++ .) ih
    · have hnull : f.branch_id = none ∨ f.product_id = none := by
        rcases hb : f.branch_id with _ | i
        · exact Or.inl rfl
        · rcases hp : f.product_id with _ | k
          · exact Or.inr rfl
          · rw [hb, hp] at hf; simp at hf
      rw [if_neg hf, factJoinRows_eq_nil hnull, List.nil_append]
      exact ih

theorem merge_left_miss {β : Type _} {κ : Type _} [DecidableEq κ]
    {left : List β} (key : β → κ) {right : List (ℕ × κ)} {b : β}
    (hb : b ∈ left) (hmiss : key b ∉ right.map Prod.snd) :
    (b, (none : Option ℕ)) ∈ merge_left left key right := by
  simp only [merge_left]
  refine List.mem_flatMap.2 ⟨b, hb, ?_⟩
  have hfil : (right.filter fun p => decide (p.2 = key b)) = [] := by
    rw [List.filter_eq_nil_iff]
    intro p hp
    simp only [decide_eq_true_eq]
    exact fun h => hmiss (h ▸ List.mem_map_of_mem Prod.snd hp)
  rw [hfil]
  exact List.mem_singleton.2 rfl

theorem merge_left_mem_of_mem {β : Type _} {κ : Type _} [DecidableEq κ]
    {left : List β} (key : β → κ) {right : List (ℕ × κ)}
    (h : (right.map Prod.snd).Nodup) {b : β} (hb : b ∈ left) :
    (b, lookupKey right (key b)) ∈ merge_left left key right := by
  rw [merge_left_eq_map _ _ h]
  exact List.mem_map_of_mem _ hb

theorem dim_fst_eq {α : Type _} [DecidableEq α] (l : List α) :
    (assignKeys (drop_duplicates l)).map Prod.fst = List.range' 1 l.toFinset.card := by
  rw [assignKeys_map_fst, length_drop_duplicates]

/-- C1: for every fact table and dimension tables, the report emits exactly
the rows `(branch, product_line, total)` whose group occurs in the joined
data, whose total is the group's sales sum rounded to 2 decimal places and
whose dense rank within its branch is at most 3 (so all tied groups are
emitted, and a branch with fewer groups emits fewer rows); groups of one
branch with equal rounded totals share a rank; ranks have no gaps; and the
rows the report projects are ordered by branch ascending, then rank
descending. -/
theorem report_top3_dense_rank_ordered (facts : List FactRow)
    (bd : List (ℕ × String × String)) (pd : List (ℕ × String × ℚ)) :
    (∀ b l t, (b, l, t) ∈ export_df facts bd pd ↔
      ((b, l) ∈ groupPairs (joined facts bd pd) ∧
        t = round2 (salesSum (joined facts bd pd) b l) ∧
        denseRank (joined facts bd pd) b l ≤ 3)) ∧
    (∀ b l l', round2 (salesSum (joined facts bd pd) b l) =
        round2 (salesSum (joined facts bd pd) b l') →
      denseRank (joined facts bd pd) b l = denseRank (joined facts bd pd) b l') ∧
    (∀ b l, 2 ≤ denseRank (joined facts bd pd) b l →
      ∃ l', (b, l') ∈ groupPairs (joined facts bd pd) ∧
        denseRank (joined facts bd pd) b l' + 1 =
          denseRank (joined facts bd pd) b l) ∧
    List.Sorted reportOrder
      (((cteOf (joined facts bd pd)).filter fun x =>
        decide (x.2.2.2 ≤ 3)).insertionSort reportOrder) := by
  refine ⟨fun b l t => ?_, fun b l l' h => denseRank_congr h,
    fun b l h => denseRank_pred h, sorted_reportRows _⟩
  exact mem_reportRows

/-- Witness for C1 at a concrete input: the (A, X) group of the sample data
appears in the report with its rounded total. -/
theorem report_top3_dense_rank_ordered_witness :
    ("A", "X", round2 (salesSum (joined [fX, fY] bd5 pd5) "A" "X")) ∈
      export_df [fX, fY] bd5 pd5 :=
  ((report_top3_dense_rank_ordered [fX, fY] bd5 pd5).1 "A" "X" _).mpr
    ⟨by decide, rfl, by decide⟩

/-- C2: each of the three dimension tables has pairwise-distinct natural
keys, and its surrogate-key column is the list 1..k — hence exactly the set
`{1, ..., k}` — where k is the number of distinct natural-key combinations
in the input. -/
theorem dimension_uniqueness (rows : List RawRow) :
    (((branch_df rows).map Prod.snd).Nodup ∧
      (branch_df rows).map Prod.fst =
        List.range' 1 ((rows.map branchKey).toFinset.card) ∧
      ((branch_df rows).map Prod.fst).toFinset =
        Finset.Icc 1 ((rows.map branchKey).toFinset.card)) ∧
    (((customer_df rows).map Prod.snd).Nodup ∧
      (customer_df rows).map Prod.fst =
        List.range' 1 ((rows.map customerKey).toFinset.card) ∧
      ((customer_df rows).map Prod.fst).toFinset =
        Finset.Icc 1 ((rows.map customerKey).toFinset.card)) ∧
    (((product_df rows).map Prod.snd).Nodup ∧
      (product_df rows).map Prod.fst =
        List.range' 1 ((rows.map productKey).toFinset.card) ∧
      ((product_df rows).map Prod.fst).toFinset =
        Finset.Icc 1 ((rows.map productKey).toFinset.card)) := by
  refine ⟨⟨nodup_branch_df_keys rows, dim_fst_eq _, ?_⟩,
    ⟨nodup_customer_df_keys rows, dim_fst_eq _, ?_⟩,
    ⟨nodup_product_df_keys rows, dim_fst_eq _, ?_⟩⟩ <;>
  simp only [branch_df, customer_df, product_df] <;>
  rw [dim_fst_eq, toFinset_range_one]

/-- C3: when the date-time column parses, the fact table has exactly one
row per raw input row, duplicate natural keys in the input notwithstanding
(each left join hits at most one dimension row because dimension keys are
duplicate-free). -/
theorem fact_cardinality (parse : String → Option ℕ) (rows : List RawRow)
    (dts : List ℕ) (h : parseAll parse rows = some dts) :
    (sales_data rows dts).length = rows.length := by
  rw [sales_data, List.length_map, merged_eq_map, List.length_map,
    List.length_zip, parseAll_length h, Nat.min_self]

/-- Witness for C3 at a concrete two-row input. -/
theorem fact_cardinality_witness :
    parseAll parse0 [rX, rY] = some [0, 0] ∧
      (sales_data [rX, rY] [0, 0]).length = [rX, rY].length :=
  ⟨rfl, fact_cardinality parse0 [rX, rY] [0, 0] rfl⟩

/-- C4: for every merged fact row and each of its three foreign keys, a
non-null key refers to a dimension row whose natural key equals the
corresponding columns of the raw row the fact row came from. -/
theorem join_correctness (rows : List RawRow) (dts : List ℕ)
    (x : (((RawRow × ℕ) × Option ℕ) × Option ℕ) × Option ℕ)
    (hx : x ∈ merged rows dts) :
    (∀ i, x.1.1.2 = some i → (i, branchKey x.1.1.1.1) ∈ branch_df rows) ∧
    (∀ i, x.1.2 = some i → (i, customerKey x.1.1.1.1) ∈ customer_df rows) ∧
    (∀ i, x.2 = some i → (i, productKey x.1.1.1.1) ∈ product_df rows) := by
  rw [merged_eq_map] at hx
  obtain ⟨rd, hrd, rfl⟩ := List.mem_map.1 hx
  exact ⟨fun i hi => lookupKey_mem hi, fun i hi => lookupKey_mem hi,
    fun i hi => lookupKey_mem hi⟩

/-- Witness for C4 at a concrete one-row input. -/
theorem join_correctness_witness :
    (1, branchKey rX) ∈ branch_df [rX] :=
  (join_correctness [rX] [7] ((((rX, 7), some 1), some 1), some 1)
    (by decide)).1 1 rfl

/-- C5 as stated is false on the code: in the sample joined data the exact
totals of the (A, X) and (A, Y) groups agree through the second decimal
place (equal floors after scaling by 100, and less than 0.01 apart), yet
their dense ranks differ, because `ROUND` rounds to the nearest 2-decimal
value rather than truncating. -/
theorem rounding_beyond_2dp_counterexample :
    ratFloor (salesSum (joined [fX, fY] bd5 pd5) "A" "X" * 100) =
      ratFloor (salesSum (joined [fX, fY] bd5 pd5) "A" "Y" * 100) ∧
    |salesSum (joined [fX, fY] bd5 pd5) "A" "X" -
      salesSum (joined [fX, fY] bd5 pd5) "A" "Y"| < 1 / 100 ∧
    salesSum (joined [fX, fY] bd5 pd5) "A" "X" ≠
      salesSum (joined [fX, fY] bd5 pd5) "A" "Y" ∧
    denseRank (joined [fX, fY] bd5 pd5) "A" "X" ≠
      denseRank (joined [fX, fY] bd5 pd5) "A" "Y" := by
  decide

/-- C5 (amended): each group's total is rounded to 2 decimal places before
the rank comparison, so two categories of one location whose exact totals
round to the same 2-decimal value receive the same dense rank. -/
theorem rounding_applied_before_rank (facts : List FactRow)
    (bd : List (ℕ × String × String)) (pd : List (ℕ × String × ℚ))
    (b l l' : String)
    (h1 : (b, l) ∈ groupPairs (joined facts bd pd))
    (h2 : (b, l') ∈ groupPairs (joined facts bd pd))
    (h : round2 (salesSum (joined facts bd pd) b l) =
      round2 (salesSum (joined facts bd pd) b l')) :
    denseRank (joined facts bd pd) b l = denseRank (joined facts bd pd) b l' :=
  denseRank_congr h

/-- Witness for the amended C5: groups with exact totals 1.234 and 1.229
both round to 1.23 and share their dense rank. -/
theorem rounding_applied_before_rank_witness :
    denseRank (joined [fX, fW] bd5 pd5) "A" "X" =
      denseRank (joined [fX, fW] bd5 pd5) "A" "Y" :=
  rounding_applied_before_rank [fX, fW] bd5 pd5 "A" "X" "Y"
    (by decide) (by decide) (by decide)

/-- C6: a raw row whose natural key is absent from one dimension still
yields its merged fact row: the missing dimension's foreign key is null and
the other two foreign keys are the ordinary dimension lookups, unaffected
by the miss; this holds for a miss in each of the three dimensions. -/
theorem join_miss_null_fk (rows : List RawRow) (dts : List ℕ) (r : RawRow)
    (t : ℕ) (hmem : (r, t) ∈ rows.zip dts) :
    (∀ bd : List (ℕ × String × String), branchKey r ∉ bd.map Prod.snd →
      ((((r, t), (none : Option ℕ)),
          lookupKey (customer_df rows) (customerKey r)),
        lookupKey (product_df rows) (productKey r)) ∈
        mergeAll rows dts bd (customer_df rows) (product_df rows)) ∧
    (∀ cd : List (ℕ × String × String), customerKey r ∉ cd.map Prod.snd →
      ((((r, t), lookupKey (branch_df rows) (branchKey r)),
          (none : Option ℕ)),
        lookupKey (product_df rows) (productKey r)) ∈
        mergeAll rows dts (branch_df rows) cd (product_df rows)) ∧
    (∀ pd : List (ℕ × String × ℚ), productKey r ∉ pd.map Prod.snd →
      ((((r, t), lookupKey (branch_df rows) (branchKey r)),
          lookupKey (customer_df rows) (customerKey r)),
        (none : Option ℕ)) ∈
        mergeAll rows dts (branch_df rows) (customer_df rows) pd) := by
  refine ⟨fun bd hmiss => ?_, fun cd hmiss => ?_, fun pd hmiss => ?_⟩
  · rw [mergeAll]
    apply merge_left_mem_of_mem _ (nodup_product_df_keys rows)
    apply merge_left_mem_of_mem _ (nodup_customer_df_keys rows)
    exact merge_left_miss _ hmem hmiss
  · rw [mergeAll]
    apply merge_left_mem_of_mem _ (nodup_product_df_keys rows)
    exact merge_left_miss (fun x => customerKey x.1.1)
      (merge_left_mem_of_mem _ (nodup_branch_df_keys rows) hmem) hmiss
  · rw [mergeAll]
    exact merge_left_miss (fun x => productKey x.1.1.1)
      (merge_left_mem_of_mem _ (nodup_customer_df_keys rows)
        (merge_left_mem_of_mem _ (nodup_branch_df_keys rows) hmem)) hmiss

/-- Witness for C6: the sample row against an empty branch dimension. -/
theorem join_miss_null_fk_witness :
    ((((rX, 7), (none : Option ℕ)),
        lookupKey (customer_df [rX]) (customerKey rX)),
      lookupKey (product_df [rX]) (productKey rX)) ∈
      mergeAll [rX] [7] [] (customer_df [rX]) (product_df [rX]) :=
  (join_miss_null_fk [rX] [7] rX 7 (by decide)).1 [] (by decide)

/-- C7: a date-time parse failure on any input row aborts the run before
any write: the store comes back unchanged, so none of the four tables is
created or replaced. -/
theorem parse_failure_no_write (parse : String → Option ℕ) (rows : List RawRow)
    (st : Store) (r : RawRow) (hr : r ∈ rows)
    (h : parse (combinedDateTime r) = none) :
    runPipeline parse rows st = st := by
  unfold runPipeline
  rw [parseAll_eq_none hr h]

/-- Witness for C7: a failing parser leaves the empty store untouched. -/
theorem parse_failure_no_write_witness :
    runPipeline parseN [rX] st0 = st0 :=
  parse_failure_no_write parseN [rX] st0 rX (List.mem_singleton.2 rfl) rfl

/-- C8: an input with zero transaction rows succeeds and produces three
empty dimension tables, an empty fact table, and an empty report. -/
theorem empty_input_ok (parse : String → Option ℕ) (st : Store) :
    runPipeline parse [] st =
      { branch_dim := some [], customer_dim := some [], product_dim := some [],
        sales_fact := some [] } ∧
    generate_report (runPipeline parse [] st) = some [] :=
  ⟨rfl, rfl⟩

/-- C9: the report's inner joins silently exclude every fact row whose
branch or product foreign key is null: such a row produces no joined rows,
and deleting all such rows from the fact table leaves the report unchanged,
so their sale amounts contribute to no total. -/
theorem null_fk_rows_excluded (facts : List FactRow)
    (bd : List (ℕ × String × String)) (pd : List (ℕ × String × ℚ)) :
    (∀ f ∈ facts, (f.branch_id = none ∨ f.product_id = none) →
      factJoinRows bd pd f = []) ∧
    export_df facts bd pd =
      export_df (facts.filter fun f =>
        f.branch_id.isSome && f.product_id.isSome) bd pd := by
  refine ⟨fun f _ h => factJoinRows_eq_nil h, ?_⟩
  rw [export_df, export_df, ← joined_filter_eq]

/-- Witness for C9: a fact row with a null branch key joins to nothing. -/
theorem null_fk_rows_excluded_witness :
    factJoinRows bd5 pd5 fN = [] :=
  (null_fk_rows_excluded [fN] bd5 pd5).1 fN (List.mem_singleton.2 rfl) (Or.inl rfl)

/-- C10: dimension extraction is deterministic: two runs over equal inputs
produce equal dimension tables, assigning the same surrogate key to the
same natural key; and deduplication keeps exactly the distinct natural-key
combinations of the input, ordered by the position of their first
occurrence (pandas `drop_duplicates` keeps the first occurrence). -/
theorem dedup_deterministic_first_occurrence (rows rows' : List RawRow)
    (h : rows = rows') :
    (branch_df rows = branch_df rows' ∧ customer_df rows = customer_df rows' ∧
      product_df rows = product_df rows') ∧
    ((drop_duplicates (rows.map branchKey)).Pairwise fun a b =>
        firstIdx (rows.map branchKey) a < firstIdx (rows.map branchKey) b) ∧
    (∀ a, a ∈ drop_duplicates (rows.map branchKey) ↔ a ∈ rows.map branchKey) ∧
    ((drop_duplicates (rows.map customerKey)).Pairwise fun a b =>
        firstIdx (rows.map customerKey) a < firstIdx (rows.map customerKey) b) ∧
    (∀ a, a ∈ drop_duplicates (rows.map customerKey) ↔ a ∈ rows.map customerKey) ∧
    ((drop_duplicates (rows.map productKey)).Pairwise fun a b =>
        firstIdx (rows.map productKey) a < firstIdx (rows.map productKey) b) ∧
    (∀ a, a ∈ drop_duplicates (rows.map productKey) ↔ a ∈ rows.map productKey) := by
  subst h
  exact ⟨⟨rfl, rfl, rfl⟩, pairwise_firstIdx_drop_duplicates _,
    fun a => mem_drop_duplicates, pairwise_firstIdx_drop_duplicates _,
    fun a => mem_drop_duplicates, pairwise_firstIdx_drop_duplicates _,
    fun a => mem_drop_duplicates⟩

/-- Witness for C10 at a concrete input. -/
theorem dedup_deterministic_first_occurrence_witness :
    branch_df [rX, rY] = branch_df [rX, rY] :=
  (dedup_deterministic_first_occurrence [rX, rY] [rX, rY] rfl).1.1
